import Mathlib

/-!
A shallow embedding of `pydocx/openxml/wordprocessing/paragraph.py` and of the
external collaborators it consumes (the container, style table and numbering
table), faithful to the Python source.  Python strings are modelled as lists of
characters; Python truthiness of an optional string (both `None` and `''` are
falsy) is made explicit at each use site.  Methods that mutate the paragraph
are modelled as state-passing functions returning the new paragraph.
-/

namespace Pydocx

/-- Python strings are modelled as lists of characters. -/
abbrev PyStr := List Char

/-- Modelled from the spec: the inline content of a run.  The source classes
`Text` (whose `text` attribute may be absent, i.e. `None`) and `TabChar` are
plain data holders; every other inline node kind (breaks, etc.) is opaque to
`paragraph.py` and collapsed into `other`. -/
inductive RunChild where
  | text (t : Option PyStr)
  | tab
  | other
deriving DecidableEq

/-- Modelled from the spec: a `Run` is an ordered sequence of inline content
nodes. -/
structure Run where
  children : List RunChild
deriving DecidableEq

/-- The fixed set of paragraph child variants accepted by the source
`XmlCollection(Run, Hyperlink, SmartTagRun, InsertedRun, DeletedRun, SdtRun)`.
Only the `Run` variant carries data that `paragraph.py` inspects. -/
inductive ParagraphChild where
  | run (r : Run)
  | hyperlink
  | smartTagRun
  | insertedRun
  | deletedRun
  | sdtRun
deriving DecidableEq

/-- Modelled from the spec: a named style with its heading-classification
predicate `is_a_heading()` recorded as a boolean field. -/
structure Style where
  styleId : PyStr
  isAHeading : Bool
deriving DecidableEq

/-- Modelled from the spec: a numbering level, keyed by a level id. -/
structure NumberingLevel where
  levelId : PyStr
deriving DecidableEq

/-- Modelled from the spec: a numbering definition maps level ids to levels;
`get_level` returns no result when the level is not found. -/
structure NumberingDefinition where
  getLevel : PyStr → Option NumberingLevel

/-- Modelled from the spec: the numbering table, mapping definition ids to
definitions; lookup returns no result when the definition is not found. -/
structure Numbering where
  getNumberingDefinition : PyStr → Option NumberingDefinition

/-- Modelled from the spec: the container part holding the numbering table. -/
structure NumberingDefinitionsPart where
  numbering : Numbering

/-- Modelled from the spec: the container part owning the style table; its
`get_style_chain_stack(style_type, style_id)` walks the inheritance chain and
yields the resulting styles in order. -/
structure StyleDefinitionsPart where
  getStyleChainStack : PyStr → PyStr → List Style

/-- Modelled from the spec: the container reached from a paragraph.  Either
part attribute may be missing (e.g. in a footnote context); the source reads
them with `getattr(self.container, ..., None)`. -/
structure Container where
  styleDefinitionsPart : Option StyleDefinitionsPart
  numberingDefinitionsPart : Option NumberingDefinitionsPart

/-- Modelled from the spec: the numbering reference carried by paragraph
properties, a pair of a definition id (`num_id`) and a level id. -/
structure NumberingProperties where
  numId : PyStr
  levelId : PyStr
deriving DecidableEq

/-- Modelled from the spec: paragraph properties carry an optional parent
style name and an optional numbering reference. -/
structure ParagraphProperties where
  parentStyle : Option PyStr
  numberingProperties : Option NumberingProperties
deriving DecidableEq

/-- A paragraph: optional properties, ordered heterogeneous children, the
(non-owned) container, and the two lazily populated caches.  The source
`__init__` sets `_effective_properties = None`; the `_heading_style` attribute
does not exist until first assigned, which `Option (Option Style)` captures
(`none` = attribute absent). -/
structure Paragraph where
  properties : Option ParagraphProperties
  children : List ParagraphChild
  container : Container
  effectivePropertiesCache : Option ParagraphProperties := none
  headingStyleCache : Option (Option Style) := none

/-- Source `Paragraph.effective_properties`: `if not self._effective_properties:
self._effective_properties = self.properties`, then return the attribute.  The
guard is a Python truthiness test, so a cached `None` is indistinguishable
from an empty cache. -/
def Paragraph.effective_properties (p : Paragraph) : Option ParagraphProperties × Paragraph :=
  match p.effectivePropertiesCache with
  | none => (p.properties, { p with effectivePropertiesCache := p.properties })
  | some cached => (some cached, p)

/-- Source `Paragraph.get_style_chain_stack`: empty when there are no
properties, no (truthy) parent style, or the container has no
`style_definitions_part`; otherwise delegates to the part's chain walk for
kind `'paragraph'`. -/
def Paragraph.get_style_chain_stack (p : Paragraph) : List Style :=
  match p.properties with
  | none => []
  | some props =>
    match props.parentStyle with
    | none => []
    | some parent_style =>
      if parent_style.isEmpty then []
      else
        match p.container.styleDefinitionsPart with
        | none => []
        | some part => part.getStyleChainStack "paragraph".data parent_style

/-- The loop inside the source `heading_style` getter: scan the chain and keep
the first style whose `is_a_heading()` holds, breaking there. -/
def firstHeadingStyle : List Style → Option Style
  | [] => none
  | style :: rest => if style.isAHeading then some style else firstHeadingStyle rest

/-- Source `Paragraph.heading_style` getter: return the `_heading_style`
attribute when it exists, otherwise compute the first heading style of the
chain, cache it through the setter, and return it. -/
def Paragraph.heading_style (p : Paragraph) : Option Style × Paragraph :=
  match p.headingStyleCache with
  | some cached => (cached, p)
  | none =>
    let result := firstHeadingStyle p.get_style_chain_stack
    (result, { p with headingStyleCache := some result })

/-- Source `Paragraph.heading_style` setter: force-sets the cached value. -/
def Paragraph.set_heading_style (p : Paragraph) (style : Option Style) : Paragraph :=
  { p with headingStyleCache := some style }

/-- Source `Paragraph.get_numbering_definition`: requires, in order, a
container numbering part, truthy effective properties and truthy numbering
properties, then looks the definition up by `num_id`.  Reading
`effective_properties` can populate its cache, so the paragraph state is
threaded through. -/
def Paragraph.get_numbering_definition (p : Paragraph) :
    Option NumberingDefinition × Paragraph :=
  match p.container.numberingDefinitionsPart with
  | none => (none, p)
  | some part =>
    match p.effective_properties with
    | (none, p1) => (none, p1)
    | (some props, p1) =>
      match props.numberingProperties with
      | none => (none, p1)
      | some np => (part.numbering.getNumberingDefinition np.numId, p1)

/-- Source `Paragraph.get_numbering_level`: resolves the numbering definition,
then re-reads the effective properties and looks the level up by `level_id`. -/
def Paragraph.get_numbering_level (p : Paragraph) : Option NumberingLevel × Paragraph :=
  match p.get_numbering_definition with
  | (none, p1) => (none, p1)
  | (some nd, p1) =>
    match p1.effective_properties with
    | (none, p2) => (none, p2)
    | (some props, p2) =>
      match props.numberingProperties with
      | none => (none, p2)
      | some np => (nd.getLevel np.levelId, p2)

/-- Source `Paragraph.runs` generator: the `Run` children, in order. -/
def Paragraph.runs (p : Paragraph) : List Run :=
  p.children.filterMap fun c =>
    match c with
    | ParagraphChild.run r => some r
    | _ => none

/-- The fragments appended by the source `get_text` loop for one run: the
`text` of each truthy `Text` child. -/
def Run.textFragments (r : Run) : List PyStr :=
  r.children.filterMap fun c =>
    match c with
    | RunChild.text (some s) => if s.isEmpty then none else some s
    | _ => none

/-- Source `Paragraph.get_text`: join of every truthy `Text` fragment inside
every `Run` child, in document order. -/
def Paragraph.get_text (p : Paragraph) : PyStr :=
  ((p.runs.map Run.textFragments).flatten).flatten

/-- One iteration of the source `strip_text_from_left` inner loop on a single
run child, with the running remainder `text`.  Note two source quirks kept
faithfully: `len_text` is the length of the *original* argument, computed once
before the loops and never updated, and no branch stops the walk. -/
def stripFragment (len_text : Nat) (c : RunChild) (text : PyStr) : RunChild × PyStr :=
  match c with
  | RunChild.text (some s) =>
    if s.isEmpty then (c, text)
    else
      let len_r_child_text := s.length
      if len_r_child_text ≥ len_text then
        if text.isPrefixOf s then (RunChild.text (some (s.drop len_text)), text)
        else (c, text)
      else
        if s.isPrefixOf text then (RunChild.text (some []), text.drop len_r_child_text)
        else (c, text)
  | _ => (c, text)

/-- The source `strip_text_from_left` inner loop over one run's children. -/
def stripRunChildren (len_text : Nat) : List RunChild → PyStr → List RunChild × PyStr
  | [], text => ([], text)
  | c :: rest, text =>
    let step := stripFragment len_text c text
    let tail := stripRunChildren len_text rest step.2
    (step.1 :: tail.1, tail.2)

/-- The source `strip_text_from_left` outer loop: it iterates `self.runs`, so
non-`Run` children are left in place and do not interrupt the walk. -/
def stripParagraphChildren (len_text : Nat) :
    List ParagraphChild → PyStr → List ParagraphChild × PyStr
  | [], text => ([], text)
  | c :: rest, text =>
    match c with
    | ParagraphChild.run r =>
      let inner := stripRunChildren len_text r.children text
      let tail := stripParagraphChildren len_text rest inner.2
      (ParagraphChild.run ⟨inner.1⟩ :: tail.1, tail.2)
    | _ =>
      let tail := stripParagraphChildren len_text rest text
      (c :: tail.1, tail.2)

/-- Source `Paragraph.strip_text_from_left(text)`. -/
def Paragraph.strip_text_from_left (p : Paragraph) (text : PyStr) : Paragraph :=
  { p with children := (stripParagraphChildren text.length p.children text).1 }

/-- The source `remove_initial_tabs` inner loop on one run: remove `TabChar`
children from the front until the first non-`TabChar` child, then break. -/
def removeRunInitialTabs : List RunChild → List RunChild
  | [] => []
  | RunChild.tab :: rest => removeRunInitialTabs rest
  | c :: rest => c :: rest

/-- The source `remove_initial_tabs` outer loop: for each `Run` child strip
that run's leading tabs and continue; break only at the first non-`Run`
paragraph child. -/
def removeInitialTabsChildren : List ParagraphChild → List ParagraphChild
  | [] => []
  | ParagraphChild.run r :: rest =>
    ParagraphChild.run ⟨removeRunInitialTabs r.children⟩ :: removeInitialTabsChildren rest
  | c :: rest => c :: rest

/-- Source `Paragraph.remove_initial_tabs`. -/
def Paragraph.remove_initial_tabs (p : Paragraph) : Paragraph :=
  { p with children := removeInitialTabsChildren p.children }

/-- The counting twin of `removeRunInitialTabs` from the source
`get_number_of_initial_tabs` inner loop. -/
def countRunInitialTabs : List RunChild → Nat
  | [] => 0
  | RunChild.tab :: rest => countRunInitialTabs rest + 1
  | _ :: _ => 0

/-- The source `get_number_of_initial_tabs` outer loop, with the same
traversal and termination shape as `removeInitialTabsChildren`. -/
def numberOfInitialTabsChildren : List ParagraphChild → Nat
  | [] => 0
  | ParagraphChild.run r :: rest =>
    countRunInitialTabs r.children + numberOfInitialTabsChildren rest
  | _ :: _ => 0

/-- Source `Paragraph.get_number_of_initial_tabs`. -/
def Paragraph.get_number_of_initial_tabs (p : Paragraph) : Nat :=
  numberOfInitialTabsChildren p.children

/-- Test for a `TabChar` node. -/
def isTabChar : RunChild → Bool
  | RunChild.tab => true
  | _ => false

/-- Total number of `TabChar` nodes in one run's children. -/
def runTabCount (cs : List RunChild) : Nat := cs.countP isTabChar

/-- Total number of `TabChar` nodes inside one paragraph child. -/
def childTabCount : ParagraphChild → Nat
  | ParagraphChild.run r => runTabCount r.children
  | _ => 0

/-- Total number of `TabChar` nodes inside a paragraph's run children. -/
def paraTabCount (children : List ParagraphChild) : Nat :=
  (children.map childTabCount).sum

/-- The literal text carried by one run child (empty for absent text and for
non-text nodes). -/
def fragmentText : RunChild → PyStr
  | RunChild.text (some s) => s
  | _ => []

/-- Concatenated literal text of one run's children, in order. -/
def runText (cs : List RunChild) : PyStr := (cs.map fragmentText).flatten

/-- Literal text contributed by one paragraph child (non-`Run` children
contribute nothing). -/
def childText : ParagraphChild → PyStr
  | ParagraphChild.run r => runText r.children
  | _ => []

/-- Concatenated literal text of a paragraph's children, in document order. -/
def paraText (children : List ParagraphChild) : PyStr :=
  (children.map childText).flatten

/-- Restatement of the spec's description of `get_text()`: the concatenation,
in document order, of every literal text fragment inside every `Run` child,
with non-`Run` children excluded entirely. -/
def specGetText (p : Paragraph) : PyStr := paraText p.children

/-! Helper lemmas about the initial-tab operations. -/

theorem countRun_add_removeRun (cs : List RunChild) :
    countRunInitialTabs cs + runTabCount (removeRunInitialTabs cs) = runTabCount cs := by
  induction cs with
  | nil => rfl
  | cons c rest ih =>
    cases c with
    | tab =>
      have h1 : countRunInitialTabs (RunChild.tab :: rest) = countRunInitialTabs rest + 1 := rfl
      have h2 : removeRunInitialTabs (RunChild.tab :: rest) = removeRunInitialTabs rest := rfl
      have h3 : runTabCount (RunChild.tab :: rest) = runTabCount rest + 1 := by
        simp [runTabCount, List.countP_cons, isTabChar]
      rw [h1, h2, h3]
      omega
    | text t =>
      simp [countRunInitialTabs, removeRunInitialTabs]
    | other =>
      simp [countRunInitialTabs, removeRunInitialTabs]

theorem numberOf_add_remove (children : List ParagraphChild) :
    numberOfInitialTabsChildren children
        + paraTabCount (removeInitialTabsChildren children)
      = paraTabCount children := by
  induction children with
  | nil => rfl
  | cons c rest ih =>
    cases c with
    | run r =>
      have h := countRun_add_removeRun r.children
      simp only [numberOfInitialTabsChildren, removeInitialTabsChildren, paraTabCount,
        List.map_cons, List.sum_cons, childTabCount] at ih ⊢
      omega
    | hyperlink => simp [numberOfInitialTabsChildren, removeInitialTabsChildren]
    | smartTagRun => simp [numberOfInitialTabsChildren, removeInitialTabsChildren]
    | insertedRun => simp [numberOfInitialTabsChildren, removeInitialTabsChildren]
    | deletedRun => simp [numberOfInitialTabsChildren, removeInitialTabsChildren]
    | sdtRun => simp [numberOfInitialTabsChildren, removeInitialTabsChildren]

theorem removeRun_idem (cs : List RunChild) :
    removeRunInitialTabs (removeRunInitialTabs cs) = removeRunInitialTabs cs := by
  induction cs with
  | nil => rfl
  | cons c rest ih =>
    cases c with
    | tab => simpa [removeRunInitialTabs] using ih
    | text t => simp [removeRunInitialTabs]
    | other => simp [removeRunInitialTabs]

theorem removeChildren_idem (children : List ParagraphChild) :
    removeInitialTabsChildren (removeInitialTabsChildren children)
      = removeInitialTabsChildren children := by
  induction children with
  | nil => rfl
  | cons c rest ih =>
    cases c with
    | run r => simp [removeInitialTabsChildren, removeRun_idem, ih]
    | hyperlink => simp [removeInitialTabsChildren]
    | smartTagRun => simp [removeInitialTabsChildren]
    | insertedRun => simp [removeInitialTabsChildren]
    | deletedRun => simp [removeInitialTabsChildren]
    | sdtRun => simp [removeInitialTabsChildren]

theorem countRun_removeRun (cs : List RunChild) :
    countRunInitialTabs (removeRunInitialTabs cs) = 0 := by
  induction cs with
  | nil => rfl
  | cons c rest ih =>
    cases c with
    | tab => simpa [removeRunInitialTabs] using ih
    | text t => simp [removeRunInitialTabs, countRunInitialTabs]
    | other => simp [removeRunInitialTabs, countRunInitialTabs]

theorem numberOf_remove_zero (children : List ParagraphChild) :
    numberOfInitialTabsChildren (removeInitialTabsChildren children) = 0 := by
  induction children with
  | nil => rfl
  | cons c rest ih =>
    cases c with
    | run r =>
      simp [removeInitialTabsChildren, numberOfInitialTabsChildren, countRun_removeRun, ih]
    | hyperlink => simp [removeInitialTabsChildren, numberOfInitialTabsChildren]
    | smartTagRun => simp [removeInitialTabsChildren, numberOfInitialTabsChildren]
    | insertedRun => simp [removeInitialTabsChildren, numberOfInitialTabsChildren]
    | deletedRun => simp [removeInitialTabsChildren, numberOfInitialTabsChildren]
    | sdtRun => simp [removeInitialTabsChildren, numberOfInitialTabsChildren]

/-! Helper lemmas about the text operations. -/

theorem runText_cons (c : RunChild) (cs : List RunChild) :
    runText (c :: cs) = fragmentText c ++ runText cs := rfl

theorem paraText_cons (c : ParagraphChild) (cs : List ParagraphChild) :
    paraText (c :: cs) = childText c ++ paraText cs := rfl

theorem textFragments_flatten (r : Run) :
    r.textFragments.flatten = runText r.children := by
  obtain ⟨cs⟩ := r
  induction cs with
  | nil => rfl
  | cons c rest ih =>
    cases c with
    | text t =>
      cases t with
      | none =>
        simpa [Run.textFragments, List.filterMap_cons, runText_cons, fragmentText]
          using ih
      | some s =>
        by_cases hs : s = []
        · subst hs
          simpa [Run.textFragments, List.filterMap_cons, runText_cons, fragmentText]
            using ih
        · have hs' : s.isEmpty = false := by simpa using hs
          simp only [Run.textFragments, List.filterMap_cons, hs', Bool.false_eq_true,
            if_false, List.flatten_cons, runText_cons, fragmentText] at ih ⊢
          rw [ih]
    | tab =>
      simpa [Run.textFragments, List.filterMap_cons, runText_cons, fragmentText]
        using ih
    | other =>
      simpa [Run.textFragments, List.filterMap_cons, runText_cons, fragmentText]
        using ih

theorem runs_text_eq (children : List ParagraphChild) :
    ((((children.filterMap fun c =>
        match c with
        | ParagraphChild.run r => some r
        | _ => none)).map Run.textFragments).flatten).flatten = paraText children := by
  induction children with
  | nil => rfl
  | cons c rest ih =>
    cases c with
    | run r =>
      simp only [List.filterMap_cons, List.map_cons, List.flatten_cons,
        List.flatten_append, paraText_cons, childText]
      rw [textFragments_flatten, ih]
    | hyperlink => simpa [List.filterMap_cons, paraText_cons, childText] using ih
    | smartTagRun => simpa [List.filterMap_cons, paraText_cons, childText] using ih
    | insertedRun => simpa [List.filterMap_cons, paraText_cons, childText] using ih
    | deletedRun => simpa [List.filterMap_cons, paraText_cons, childText] using ih
    | sdtRun => simpa [List.filterMap_cons, paraText_cons, childText] using ih

theorem get_text_eq_paraText (p : Paragraph) : p.get_text = paraText p.children :=
  runs_text_eq p.children

/-- Claim C7: `get_text()` returns the concatenation, in document order, of
every literal text fragment inside every `Run` child; empty or absent
fragments and non-text inline content contribute nothing, and non-`Run`
children are excluded entirely.  (`get_text` is embedded as a pure function,
so it cannot modify the paragraph.) -/
theorem c7_get_text_spec (p : Paragraph) : p.get_text = specGetText p :=
  get_text_eq_paraText p

/-! Helper lemmas about `strip_text_from_left`. -/

theorem stripRunChildren_cons (len_text : Nat) (c : RunChild) (cs : List RunChild)
    (text : PyStr) :
    stripRunChildren len_text (c :: cs) text
      = ((stripFragment len_text c text).1
            :: (stripRunChildren len_text cs (stripFragment len_text c text).2).1,
         (stripRunChildren len_text cs (stripFragment len_text c text).2).2) := rfl

theorem stripFragment_skip (len_text : Nat) (c : RunChild) (text : PyStr)
    (h : fragmentText c = []) : stripFragment len_text c text = (c, text) := by
  cases c with
  | text t =>
    cases t with
    | none => rfl
    | some s =>
      have hs : s = [] := h
      subst hs
      rfl
  | tab => rfl
  | other => rfl

theorem stripRunChildren_spec (len_text : Nat) (cs : List RunChild) :
    ∀ (text rest : PyStr),
      text = runText cs ++ rest →
      text.length ≤ len_text →
      runText (stripRunChildren len_text cs text).1 = [] ∧
      ((stripRunChildren len_text cs text).2 = rest ∨ rest = []) := by
  induction cs with
  | nil =>
    intro text rest ht _
    refine ⟨rfl, Or.inl ?_⟩
    simpa [runText] using ht
  | cons c rest_cs ih =>
    intro text rest ht hl
    rw [runText_cons, List.append_assoc] at ht
    by_cases hfe : fragmentText c = []
    · -- skipped fragment: nothing matches, the remainder is unchanged
      rw [stripRunChildren_cons, stripFragment_skip len_text c text hfe]
      have ht' : text = runText rest_cs ++ rest := by
        rw [ht, hfe, List.nil_append]
      obtain ⟨h1, h2⟩ := ih text rest ht' hl
      exact ⟨by rw [runText_cons, h1, hfe, List.nil_append], h2⟩
    · -- a truthy text fragment
      obtain ⟨s, hc, hs⟩ : ∃ s, c = RunChild.text (some s) ∧ s ≠ [] := by
        cases c with
        | text t =>
          cases t with
          | none => exact absurd rfl hfe
          | some s => exact ⟨s, rfl, fun h => hfe (by simp [fragmentText, h])⟩
        | tab => exact absurd rfl hfe
        | other => exact absurd rfl hfe
      subst hc
      have hfrag : fragmentText (RunChild.text (some s)) = s := rfl
      rw [hfrag] at ht
      have hsE : s.isEmpty = false := by simpa using hs
      by_cases hge : len_text ≤ s.length
      · -- the fragment is at least as long as the original argument; under the
        -- exact-prefix invariant this forces the remainder to be the whole
        -- fragment and everything after it to be empty
        have hlen : text.length = s.length + (runText rest_cs ++ rest).length := by
          rw [ht, List.length_append]
        have htail : (runText rest_cs ++ rest).length = 0 := by omega
        have htail2 : runText rest_cs ++ rest = [] := by
          simpa [List.length_eq_zero] using htail
        obtain ⟨hrc, hrest⟩ := List.append_eq_nil.mp htail2
        have htext_s : text = s := by rw [ht, htail2, List.append_nil]
        have hpre : text.isPrefixOf s = true := by
          rw [List.isPrefixOf_iff_prefix, htext_s]
        have hdrop : s.drop len_text = [] :=
          List.drop_eq_nil_of_le (by rw [← htext_s]; exact hl)
        have hstep : stripFragment len_text (RunChild.text (some s)) text
            = (RunChild.text (some (s.drop len_text)), text) := by
          simp [stripFragment, hsE, hge, hpre]
        rw [stripRunChildren_cons, hstep]
        have ht' : text = runText rest_cs ++ text := by rw [hrc, List.nil_append]
        obtain ⟨h1, _⟩ := ih text text ht' hl
        refine ⟨?_, Or.inr hrest⟩
        rw [runText_cons, h1, hdrop]
        rfl
      · -- the fragment is shorter than the original argument: it is cleared
        -- and its length is consumed from the remainder
        have hpre : s.isPrefixOf text = true := by
          rw [List.isPrefixOf_iff_prefix, ht]
          exact List.prefix_append s _
        have hstep : stripFragment len_text (RunChild.text (some s)) text
            = (RunChild.text (some []), text.drop s.length) := by
          simp [stripFragment, hsE, hge, hpre]
        rw [stripRunChildren_cons, hstep]
        have hdrop : text.drop s.length = runText rest_cs ++ rest := by
          rw [ht]
          exact List.drop_left s _
        have hl' : (text.drop s.length).length ≤ len_text := by
          rw [List.length_drop]
          omega
        obtain ⟨h1, h2⟩ := ih (text.drop s.length) rest hdrop hl'
        refine ⟨?_, h2⟩
        rw [runText_cons, h1]
        rfl

theorem stripRunChildren_of_empty (len_text : Nat) (cs : List RunChild) :
    ∀ text, runText cs = [] → stripRunChildren len_text cs text = (cs, text) := by
  induction cs with
  | nil => intro text _; rfl
  | cons c rest ih =>
    intro text h
    rw [runText_cons, List.append_eq_nil] at h
    obtain ⟨h1, h2⟩ := h
    rw [stripRunChildren_cons, stripFragment_skip len_text c text h1, ih text h2]

theorem stripParagraphChildren_of_empty (len_text : Nat)
    (children : List ParagraphChild) :
    ∀ text, paraText children = [] →
      stripParagraphChildren len_text children text = (children, text) := by
  induction children with
  | nil => intro text _; rfl
  | cons c rest ih =>
    intro text h
    rw [paraText_cons, List.append_eq_nil] at h
    obtain ⟨h1, h2⟩ := h
    cases c with
    | run r =>
      have hr : runText r.children = [] := h1
      show (ParagraphChild.run ⟨(stripRunChildren len_text r.children text).1⟩
              :: (stripParagraphChildren len_text rest
                    (stripRunChildren len_text r.children text).2).1,
            (stripParagraphChildren len_text rest
              (stripRunChildren len_text r.children text).2).2)
          = (ParagraphChild.run r :: rest, text)
      rw [stripRunChildren_of_empty len_text r.children text hr, ih text h2]
    | hyperlink =>
      show (ParagraphChild.hyperlink :: (stripParagraphChildren len_text rest text).1,
            (stripParagraphChildren len_text rest text).2)
          = (ParagraphChild.hyperlink :: rest, text)
      rw [ih text h2]
    | smartTagRun =>
      show (ParagraphChild.smartTagRun :: (stripParagraphChildren len_text rest text).1,
            (stripParagraphChildren len_text rest text).2)
          = (ParagraphChild.smartTagRun :: rest, text)
      rw [ih text h2]
    | insertedRun =>
      show (ParagraphChild.insertedRun :: (stripParagraphChildren len_text rest text).1,
            (stripParagraphChildren len_text rest text).2)
          = (ParagraphChild.insertedRun :: rest, text)
      rw [ih text h2]
    | deletedRun =>
      show (ParagraphChild.deletedRun :: (stripParagraphChildren len_text rest text).1,
            (stripParagraphChildren len_text rest text).2)
          = (ParagraphChild.deletedRun :: rest, text)
      rw [ih text h2]
    | sdtRun =>
      show (ParagraphChild.sdtRun :: (stripParagraphChildren len_text rest text).1,
            (stripParagraphChildren len_text rest text).2)
          = (ParagraphChild.sdtRun :: rest, text)
      rw [ih text h2]

theorem stripParagraphChildren_spec (len_text : Nat)
    (children : List ParagraphChild) :
    ∀ text, text = paraText children → text.length ≤ len_text →
      paraText (stripParagraphChildren len_text children text).1 = [] := by
  induction children with
  | nil => intro text _ _; rfl
  | cons c rest ih =>
    intro text ht hl
    rw [paraText_cons] at ht
    cases c with
    | run r =>
      have htc : childText (ParagraphChild.run r) = runText r.children := rfl
      rw [htc] at ht
      have hrun := stripRunChildren_spec len_text r.children text (paraText rest) ht hl
      obtain ⟨h1, h2⟩ := hrun
      show paraText (ParagraphChild.run ⟨(stripRunChildren len_text r.children text).1⟩
              :: (stripParagraphChildren len_text rest
                    (stripRunChildren len_text r.children text).2).1) = []
      rw [paraText_cons]
      have hchild : childText (ParagraphChild.run
          ⟨(stripRunChildren len_text r.children text).1⟩) = [] := h1
      rw [hchild, List.nil_append]
      rcases h2 with h2 | h2
      · have hl2 : (stripRunChildren len_text r.children text).2.length ≤ len_text := by
          have hlt : text.length = (runText r.children).length + (paraText rest).length := by
            rw [ht, List.length_append]
          have h2l : (stripRunChildren len_text r.children text).2.length
              = (paraText rest).length := by rw [h2]
          omega
        exact ih _ h2 hl2
      · rw [stripParagraphChildren_of_empty len_text rest _ h2]
        exact h2
    | hyperlink =>
      have ht' : text = paraText rest := by
        rw [ht]; rfl
      show paraText (ParagraphChild.hyperlink
              :: (stripParagraphChildren len_text rest text).1) = []
      rw [paraText_cons]
      have : childText ParagraphChild.hyperlink = [] := rfl
      rw [this, List.nil_append]
      exact ih text ht' hl
    | smartTagRun =>
      have ht' : text = paraText rest := by
        rw [ht]; rfl
      show paraText (ParagraphChild.smartTagRun
              :: (stripParagraphChildren len_text rest text).1) = []
      rw [paraText_cons]
      have : childText ParagraphChild.smartTagRun = [] := rfl
      rw [this, List.nil_append]
      exact ih text ht' hl
    | insertedRun =>
      have ht' : text = paraText rest := by
        rw [ht]; rfl
      show paraText (ParagraphChild.insertedRun
              :: (stripParagraphChildren len_text rest text).1) = []
      rw [paraText_cons]
      have : childText ParagraphChild.insertedRun = [] := rfl
      rw [this, List.nil_append]
      exact ih text ht' hl
    | deletedRun =>
      have ht' : text = paraText rest := by
        rw [ht]; rfl
      show paraText (ParagraphChild.deletedRun
              :: (stripParagraphChildren len_text rest text).1) = []
      rw [paraText_cons]
      have : childText ParagraphChild.deletedRun = [] := rfl
      rw [this, List.nil_append]
      exact ih text ht' hl
    | sdtRun =>
      have ht' : text = paraText rest := by
        rw [ht]; rfl
      show paraText (ParagraphChild.sdtRun
              :: (stripParagraphChildren len_text rest text).1) = []
      rw [paraText_cons]
      have : childText ParagraphChild.sdtRun = [] := rfl
      rw [this, List.nil_append]
      exact ih text ht' hl

/-- Claim C5: round-trip: for every paragraph whose full text returned by
`get_text()` is `S`, calling `strip_text_from_left(S)` and then `get_text()`
yields the empty string. -/
theorem c5_strip_round_trip (p : Paragraph) :
    (p.strip_text_from_left p.get_text).get_text = [] := by
  rw [get_text_eq_paraText]
  show paraText (stripParagraphChildren p.get_text.length p.children p.get_text).1 = []
  exact stripParagraphChildren_spec p.get_text.length p.children p.get_text
    (get_text_eq_paraText p) (Nat.le_refl _)

/-- Claim C2: the source `remove_initial_tabs` does not end the leading region
at the first non-TabChar child found inside a Run.  On the paragraph
`[Run [TabChar, Text "a"], Run [TabChar, Text "b"]]` the inner loop of the
first run stops at `Text "a"`, yet the outer loop proceeds to the second run
and removes its leading tab as well, contradicting the claim (and the method's
own docstring, which promises to stop at the first non-TabChar node). -/
theorem c2_remove_initial_tabs_eval :
    (Paragraph.remove_initial_tabs
      ⟨none,
       [ParagraphChild.run ⟨[RunChild.tab, RunChild.text (some ['a'])]⟩,
        ParagraphChild.run ⟨[RunChild.tab, RunChild.text (some ['b'])]⟩],
       ⟨none, none⟩, none, none⟩).children
    = [ParagraphChild.run ⟨[RunChild.text (some ['a'])]⟩,
       ParagraphChild.run ⟨[RunChild.text (some ['b'])]⟩] := by
  rfl

/-- Claim C4: the value returned by `get_number_of_initial_tabs()` before
`remove_initial_tabs()` equals the number of TabChar nodes that the subsequent
`remove_initial_tabs()` call deletes, stated both additively and as the
difference of total tab counts before and after. -/
theorem c4_initial_tab_count_eq_removed (p : Paragraph) :
    p.get_number_of_initial_tabs + paraTabCount p.remove_initial_tabs.children
        = paraTabCount p.children ∧
    p.get_number_of_initial_tabs
        = paraTabCount p.children - paraTabCount p.remove_initial_tabs.children := by
  have h := numberOf_add_remove p.children
  simp only [Paragraph.get_number_of_initial_tabs, Paragraph.remove_initial_tabs]
  omega

/-- Claim C6: `remove_initial_tabs()` is idempotent: a second call leaves the
paragraph in the same state as one call, and the second call removes zero
TabChar nodes (the post-state counts zero initial tabs). -/
theorem c6_remove_initial_tabs_idempotent (p : Paragraph) :
    p.remove_initial_tabs.remove_initial_tabs = p.remove_initial_tabs ∧
    p.remove_initial_tabs.get_number_of_initial_tabs = 0 := by
  constructor
  · simp only [Paragraph.remove_initial_tabs]
    rw [removeChildren_idem]
  · simp only [Paragraph.remove_initial_tabs, Paragraph.get_number_of_initial_tabs]
    exact numberOf_remove_zero p.children

/-- Claim C1: the source `strip_text_from_left` neither stops after the
fragment that satisfies the remaining prefix nor updates `len_text` as the
remainder shrinks.  First conjunct: on runs `["ab", "ab"]`,
`strip_text_from_left("ab")` truncates the second fragment to `""` as well
(the claim says it must remain `"ab"`).  Second conjunct: on runs
`["abc", "def"]`, `strip_text_from_left("abcd")` leaves `["", "def"]`, while
the method's own docstring promises `["", "ef"]` (the stale `len_text`
comparison `3 >= 4` skips the second fragment). -/
theorem c1_strip_text_from_left_eval :
    (Paragraph.strip_text_from_left
      ⟨none,
       [ParagraphChild.run ⟨[RunChild.text (some ['a', 'b'])]⟩,
        ParagraphChild.run ⟨[RunChild.text (some ['a', 'b'])]⟩],
       ⟨none, none⟩, none, none⟩ ['a', 'b']).children
    = [ParagraphChild.run ⟨[RunChild.text (some [])]⟩,
       ParagraphChild.run ⟨[RunChild.text (some [])]⟩] ∧
    (Paragraph.strip_text_from_left
      ⟨none,
       [ParagraphChild.run ⟨[RunChild.text (some ['a', 'b', 'c'])]⟩,
        ParagraphChild.run ⟨[RunChild.text (some ['d', 'e', 'f'])]⟩],
       ⟨none, none⟩, none, none⟩ ['a', 'b', 'c', 'd']).children
    = [ParagraphChild.run ⟨[RunChild.text (some [])]⟩,
       ParagraphChild.run ⟨[RunChild.text (some ['d', 'e', 'f'])]⟩] := by
  constructor <;> rfl

/-! Concrete fixtures shared by several witnesses. -/

/-- An empty container with neither part. -/
def emptyContainer : Container := ⟨none, none⟩

/-- Paragraph properties with no parent style and no numbering reference. -/
def ppEmpty : ParagraphProperties := ⟨none, none⟩

/-- A fresh paragraph with no properties and no children. -/
def pNoProps : Paragraph := ⟨none, [], emptyContainer, none, none⟩

/-! Claim C3: effective_properties. -/

/-- Claim C3 counterexample: the claim says effective_properties is memoized
after first access even when `properties` was `None` at the first read.  On a
fresh paragraph with no properties the first read returns `None`, yet after
mutating `properties` a later read returns the new value, not the first
read's `None` (the `if not self._effective_properties` guard treats a cached
`None` as an empty cache). -/
theorem c3_effective_properties_counterexample :
    pNoProps.effective_properties.1 = none ∧
    ({ pNoProps.effective_properties.2 with
        properties := some ppEmpty }).effective_properties.1 = some ppEmpty ∧
    some ppEmpty ≠ (none : Option ParagraphProperties) := by
  refine ⟨rfl, rfl, by simp⟩

/-- Claim C3 (amended): `effective_properties` is an identity pass-through of
the paragraph's own properties; it is memoized only once a first read has
returned a non-`None` value, in which case every later read returns that same
value even if `properties` is mutated in between.  (When `properties` was
`None` at the first read, nothing is cached and later reads recompute from
the current `properties`.) -/
theorem c3_effective_properties_amended (p : Paragraph)
    (newProps : Option ParagraphProperties)
    (h : p.effectivePropertiesCache = none) :
    p.effective_properties.1 = p.properties ∧
    ∀ v, p.effective_properties.1 = some v →
      ({ p.effective_properties.2 with
          properties := newProps }).effective_properties.1 = some v := by
  constructor
  · simp [Paragraph.effective_properties, h]
  · intro v hv
    have hp : p.properties = some v := by
      simpa [Paragraph.effective_properties, h] using hv
    simp [Paragraph.effective_properties, h, hp]

/-- Claim C3 witness: the amended theorem applied to a fresh paragraph that
carries properties. -/
theorem c3_effective_properties_witness :
    pNoProps.effectivePropertiesCache = none ∧
    pNoProps.effective_properties.1 = pNoProps.properties :=
  ⟨rfl, (c3_effective_properties_amended pNoProps (some ppEmpty) rfl).1⟩

/-! Claim C8: heading_style. -/

theorem firstHeadingStyle_first_match (pre : List Style) (s : Style)
    (post : List Style) (hpre : ∀ x ∈ pre, x.isAHeading = false)
    (hs : s.isAHeading = true) :
    firstHeadingStyle (pre ++ s :: post) = some s := by
  induction pre with
  | nil => simp [firstHeadingStyle, hs]
  | cons a as ih =>
    have ha : a.isAHeading = false := hpre a (List.mem_cons_self a as)
    simp only [List.cons_append, firstHeadingStyle, ha, Bool.false_eq_true, if_false]
    exact ih fun x hx => hpre x (List.mem_cons_of_mem a hx)

theorem heading_style_fst_of_cache (p : Paragraph) (v : Option Style)
    (h : p.headingStyleCache = some v) : p.heading_style.1 = v := by
  simp [Paragraph.heading_style, h]

theorem heading_style_cache_after (p : Paragraph) :
    (p.heading_style.2).headingStyleCache = some p.heading_style.1 := by
  cases hc : p.headingStyleCache with
  | some v => simp [Paragraph.heading_style, hc]
  | none => simp [Paragraph.heading_style, hc]

/-- Claim C8: when the style chain contains a heading style, `heading_style`
resolves to the first one (later heading styles are not returned); the result
is cached on first access, so a repeated read returns the same value even if
the container (the chain's source) is changed afterwards; and the setter
force-sets the cached value, bypassing recomputation. -/
theorem c8_heading_style_spec (p : Paragraph) (h : p.headingStyleCache = none) :
    (∀ pre s post, p.get_style_chain_stack = pre ++ s :: post →
        (∀ x ∈ pre, x.isAHeading = false) → s.isAHeading = true →
        p.heading_style.1 = some s) ∧
    (∀ c2, ({ p.heading_style.2 with container := c2 }).heading_style.1
        = p.heading_style.1) ∧
    (∀ st, (p.set_heading_style st).heading_style.1 = st) := by
  have hh1 : p.heading_style.1 = firstHeadingStyle p.get_style_chain_stack := by
    simp [Paragraph.heading_style, h]
  refine ⟨?_, ?_, ?_⟩
  · intro pre s post hchain hpre hs
    rw [hh1, hchain]
    exact firstHeadingStyle_first_match pre s post hpre hs
  · intro c2
    exact heading_style_fst_of_cache _ _ (heading_style_cache_after p)
  · intro st
    rfl

/-- A non-heading style. -/
def styleA : Style := ⟨['a'], false⟩

/-- The first heading style of the example chain. -/
def styleB : Style := ⟨['b'], true⟩

/-- A second heading style, later in the chain. -/
def styleC : Style := ⟨['c'], true⟩

/-- A style table whose chain walk yields `[styleA, styleB, styleC]`. -/
def chainPart : StyleDefinitionsPart := ⟨fun _ _ => [styleA, styleB, styleC]⟩

/-- A container exposing `chainPart`. -/
def chainContainer : Container := ⟨some chainPart, none⟩

/-- A fresh paragraph whose style chain is `[styleA, styleB, styleC]`. -/
def pChain : Paragraph := ⟨some ⟨some ['h'], none⟩, [], chainContainer, none, none⟩

/-- Claim C8 witness: on the spec's chain
`[styleA (not heading), styleB (heading), styleC (heading)]` the resolved
heading style is `styleB`, a repeated read after swapping the container still
returns it, and the setter overrides the cache. -/
theorem c8_heading_style_witness :
    pChain.heading_style.1 = some styleB ∧
    ({ pChain.heading_style.2 with container := emptyContainer }).heading_style.1
        = pChain.heading_style.1 ∧
    (pChain.set_heading_style none).heading_style.1 = none := by
  have h := c8_heading_style_spec pChain rfl
  exact ⟨h.1 [styleA] styleB [styleC] rfl (by decide) rfl,
         h.2.1 emptyContainer, h.2.2 none⟩

/-! Claim C9: numbering short-circuit. -/

theorem level_none_of_def_none (p : Paragraph)
    (h : p.get_numbering_definition.1 = none) :
    p.get_numbering_level.1 = none := by
  rcases hdef : p.get_numbering_definition with ⟨d, q⟩
  cases d with
  | none =>
    unfold Paragraph.get_numbering_level
    rw [hdef]
  | some nd =>
    rw [hdef] at h
    simp at h

theorem def_none_of_no_part (p : Paragraph)
    (h : p.container.numberingDefinitionsPart = none) :
    p.get_numbering_definition.1 = none := by
  unfold Paragraph.get_numbering_definition
  rw [h]

theorem def_none_of_effective_none (p : Paragraph)
    (h : p.effective_properties.1 = none) :
    p.get_numbering_definition.1 = none := by
  unfold Paragraph.get_numbering_definition
  cases hc : p.container.numberingDefinitionsPart with
  | none => rfl
  | some part =>
    rcases heff : p.effective_properties with ⟨e, p1⟩
    cases e with
    | none => rfl
    | some props =>
      rw [heff] at h
      simp at h

theorem def_none_of_np_none (p : Paragraph) (props : ParagraphProperties)
    (h1 : p.effective_properties.1 = some props)
    (h2 : props.numberingProperties = none) :
    p.get_numbering_definition.1 = none := by
  unfold Paragraph.get_numbering_definition
  cases hc : p.container.numberingDefinitionsPart with
  | none => rfl
  | some part =>
    rcases heff : p.effective_properties with ⟨e, p1⟩
    cases e with
    | none => rfl
    | some props2 =>
      rw [heff] at h1
      have hp : props2 = props := by simpa using h1
      subst hp
      simp [h2]

/-- Claim C9: numbering resolution short-circuits: each missing link (no
container numbering table, no effective properties, no numbering reference,
definition not found) independently yields no result from both
`get_numbering_definition()` and `get_numbering_level()`; both functions are
total in the embedding, so neither can raise. -/
theorem c9_numbering_short_circuit (p : Paragraph) :
    (p.container.numberingDefinitionsPart = none →
      p.get_numbering_definition.1 = none ∧ p.get_numbering_level.1 = none) ∧
    (p.effective_properties.1 = none →
      p.get_numbering_definition.1 = none ∧ p.get_numbering_level.1 = none) ∧
    (∀ props, p.effective_properties.1 = some props →
      props.numberingProperties = none →
      p.get_numbering_definition.1 = none ∧ p.get_numbering_level.1 = none) ∧
    (p.get_numbering_definition.1 = none → p.get_numbering_level.1 = none) := by
  refine ⟨fun h => ?_, fun h => ?_, fun props h1 h2 => ?_, fun h => ?_⟩
  · have hd := def_none_of_no_part p h
    exact ⟨hd, level_none_of_def_none p hd⟩
  · have hd := def_none_of_effective_none p h
    exact ⟨hd, level_none_of_def_none p hd⟩
  · have hd := def_none_of_np_none p props h1 h2
    exact ⟨hd, level_none_of_def_none p hd⟩
  · exact level_none_of_def_none p h

/-- A numbering part whose table contains no definitions. -/
def npPart : NumberingDefinitionsPart := ⟨⟨fun _ => none⟩⟩

/-- A paragraph with a numbering table available but whose properties carry no
numbering reference. -/
def pNoNumRef : Paragraph := ⟨some ppEmpty, [], ⟨none, some npPart⟩, none, none⟩

/-- Claim C9 witness: a paragraph whose properties lack a numbering reference
gets no result from both lookups. -/
theorem c9_numbering_witness :
    pNoNumRef.get_numbering_definition.1 = none ∧
    pNoNumRef.get_numbering_level.1 = none :=
  (c9_numbering_short_circuit pNoNumRef).2.2.1 ppEmpty rfl rfl

/-! Claim C10: paragraphs with no properties. -/

/-- Claim C10: when a paragraph has no properties, `get_style_chain_stack()`
is empty, `heading_style` computes to none, and `effective_properties`
returns the absent properties; the chain is also empty when the properties
carry no parent-style reference, and when the container has no style
table. -/
theorem c10_no_properties_spec (p : Paragraph) :
    (p.properties = none →
      p.get_style_chain_stack = [] ∧
      (p.headingStyleCache = none → p.heading_style.1 = none) ∧
      (p.effectivePropertiesCache = none → p.effective_properties.1 = none)) ∧
    (∀ props, p.properties = some props → props.parentStyle = none →
      p.get_style_chain_stack = []) ∧
    (p.container.styleDefinitionsPart = none → p.get_style_chain_stack = []) := by
  refine ⟨fun h => ⟨?_, ?_, ?_⟩, fun props h1 h2 => ?_, fun h => ?_⟩
  · unfold Paragraph.get_style_chain_stack
    rw [h]
  · intro hc
    have hchain : p.get_style_chain_stack = [] := by
      unfold Paragraph.get_style_chain_stack
      rw [h]
    simp [Paragraph.heading_style, hc, hchain, firstHeadingStyle]
  · intro hc
    simp [Paragraph.effective_properties, hc, h]
  · simp [Paragraph.get_style_chain_stack, h1, h2]
  · cases hp : p.properties with
    | none => simp [Paragraph.get_style_chain_stack, hp]
    | some props =>
      cases hps : props.parentStyle with
      | none => simp [Paragraph.get_style_chain_stack, hp, hps]
      | some ps =>
        by_cases he : ps = []
        · subst he
          simp [Paragraph.get_style_chain_stack, hp, hps]
        · simp [Paragraph.get_style_chain_stack, hp, hps, he, h]

/-- Claim C10 witness: the theorem applied to a fresh paragraph with no
properties. -/
theorem c10_no_properties_witness :
    pNoProps.get_style_chain_stack = [] ∧
    pNoProps.heading_style.1 = none ∧
    pNoProps.effective_properties.1 = none := by
  have h := (c10_no_properties_spec pNoProps).1 rfl
  exact ⟨h.1, h.2.1 rfl, h.2.2 rfl⟩

end Pydocx
